import Mathlib

/-!
Shallow embedding of the i2c_term example firmware
(src/examples/i2c_term/i2c_term.ino) of the MachXO_Library repository.

External collaborators (Wire, Serial, the MachXO programming library,
SdFat, the SPI flash and TinyUSB) are modelled by an event trace plus an
environment supplying the data those collaborators hand back.  Machine
integers are modelled as Nat or Int with explicit reductions where the C
code converts: the firmware targets ARM boards (SAMD51 / nRF52840), where
char is unsigned, and int as well as unsigned long are 32 bits wide.
A result of type Option is used for code paths whose C behaviour is
undefined (dereferencing or parsing a null pointer): none marks such a
path, some carries the normal outcome.
-/

/-- Observable effects of the firmware, listed in program order. -/
inductive Ev where
  | print (s : String)
  | printNl
  | wireBegin (addr : Nat)
  | wireWrite (b : Nat)
  | wireEnd (sendStop : Bool)
  | wireRequestFrom (addr : Nat) (cnt : Int)
  | digitalWrite (pin : Nat) (high : Bool)
  | pinModeSet (pin : Nat) (mode : Nat)
  | machXOCall (op : String)
  | fileOpen (path : String)
  | fileClose
  | filePrintSize (n : Nat)
  | filePrintName (s : String)
  | flashSyncBlocks
  | fatfsCacheClear
  | changedSet (b : Bool)
  | flashReadBlocks (lba : Nat) (cnt : Nat)
  | flashWriteBlocks (lba : Nat) (cnt : Nat)
deriving DecidableEq, Repr

/-- Mutable globals of the sketch that the modelled code touches:
i2cSlaveAddress (an unsigned char on the ARM targets), the changed flag
set by the mass-storage flush callback, and the Wire receive buffer. -/
structure St where
  i2cSlaveAddress : Nat
  changed : Bool
  rx : List Nat
deriving DecidableEq, Repr

/-- Data handed back by the external collaborators: the I2C bus response
to requestFrom, the buffers filled by the MachXO library calls, file-open
results, the root directory listing, and the stack garbage read from the
uninitialized dataBuf in rd1124MemTst when fewer than 8 bytes arrive. -/
structure Env where
  bus : Nat → Int → List Nat
  deviceID : List Nat
  userCode : List Nat
  featureRow : List Nat
  featureBits : List Nat
  statusBuf : List Nat
  fileOk : String → Bool
  rootOk : Bool
  dirEntries : List (String × Nat × Bool)
  memTstBuf : List Nat

/-- Convert an unsigned 32-bit quantity to the signed int it becomes when
returned through an int32_t, as the mass-storage callbacks do. -/
def toInt32 (n : Nat) : Int :=
  if n % 2 ^ 32 < 2 ^ 31 then ((n % 2 ^ 32 : Nat) : Int)
  else ((n % 2 ^ 32 : Nat) : Int) - 2 ^ 32

/-- Uppercase hex digit, as produced by the %X conversion. -/
def hexDigitU (n : Nat) : Char :=
  if n < 10 then Char.ofNat (48 + n) else Char.ofNat (55 + n)

/-- Hex digit expansion of a number, most significant digit first. -/
def toHexU (n : Nat) : List Char :=
  if _h : n < 16 then [hexDigitU n]
  else toHexU (n / 16) ++ [hexDigitU (n % 16)]
termination_by n
decreasing_by
  exact Nat.div_lt_self (by omega) (by omega)

/-- Formatting performed by sprintf with %02X: at least two uppercase hex
digits, zero padded. -/
def hex2 (n : Nat) : String :=
  if n < 16 then String.mk ('0' :: toHexU n) else String.mk (toHexU n)

/-- Characters the C isspace classifier accepts, skipped by strtoul. -/
def isSpaceB (c : Char) : Bool :=
  c = ' ' || c = '\t' || c = '\n' || c = '\x0b' || c = '\x0c' || c = '\x0d'

/-- Value of a digit character in the given base, none when the character
is no digit of that base. -/
def digitValIn (base : Nat) (c : Char) : Option Nat :=
  let v : Option Nat :=
    if '0' ≤ c ∧ c ≤ '9' then some (c.toNat - 48)
    else if 'a' ≤ c ∧ c ≤ 'z' then some (c.toNat - 87)
    else if 'A' ≤ c ∧ c ≤ 'Z' then some (c.toNat - 55)
    else none
  match v with
  | some d => if d < base then some d else none
  | none => none

/-- Accumulate the longest run of digits of the given base, returning the
exact accumulated magnitude and the number of digits consumed. -/
def takeDigits (base : Nat) : List Char → Nat → Nat → Nat × Nat
  | [], acc, n => (acc, n)
  | c :: cs, acc, n =>
    match digitValIn base c with
    | some d => takeDigits base cs (acc * base + d) (n + 1)
    | none => (acc, n)

/-- Reduction of an exact magnitude to the unsigned long strtoul returns:
out-of-range magnitudes clamp to ULONG_MAX, a leading minus sign negates
in the 32-bit unsigned type. -/
def ulongOf (neg : Bool) (m : Nat) : Nat :=
  if 2 ^ 32 ≤ m then 2 ^ 32 - 1
  else if neg then (2 ^ 32 - m) % 2 ^ 32 else m

/-- Numeric part of strtoul with base 0: auto-detect 0x / leading-0 / plain
decimal.  Returns the value and whether any characters were converted
(that is, whether endptr moved past nptr). -/
def strtoulNum (neg : Bool) (cs : List Char) : Nat × Bool :=
  match cs with
  | '0' :: x :: rest =>
    if x = 'x' || x = 'X' then
      match takeDigits 16 rest 0 0 with
      | (_, 0) => (0, true)
      | (m, _) => (ulongOf neg m, true)
    else
      match takeDigits 8 (x :: rest) 0 0 with
      | (m, _) => (ulongOf neg m, true)
  | ['0'] => (0, true)
  | _ =>
    match takeDigits 10 cs 0 0 with
    | (_, 0) => (0, false)
    | (m, _) => (ulongOf neg m, true)

/-- C strtoul with base argument 0, as called on a token: skip leading
white space, accept one sign, auto-detect the base.  The Bool records
whether a conversion was performed. -/
def strtoul0 (s : String) : Nat × Bool :=
  match s.toList.dropWhile isSpaceB with
  | '-' :: rest => strtoulNum true rest
  | '+' :: rest => strtoulNum false rest
  | cs => strtoulNum false cs

/-- Validation nextByte applies to one token: strtoul must have consumed
characters and the value must fit in a byte, otherwise the -1 sentinel. -/
def parseByte (t : String) : Option Nat :=
  match strtoul0 t with
  | (ul, consumed) =>
    if consumed = false then none
    else if ul < 256 then some ul else none

/-- Embedding of nextByte: pull one token from the stream, parse it, and
deliver -1 when the stream is exhausted or the token fails validation. -/
def nextByte : List String → Int × List String
  | [] => (-1, [])
  | t :: ts =>
    match parseByte t with
    | some b => ((b : Int), ts)
    | none => (-1, ts)

/-- The byte values the token stream yields before its first failing
token, which is where nextByte reports exhaustion. -/
def tokenBytes : List String → List Nat
  | [] => []
  | t :: ts =>
    match parseByte t with
    | some b => b :: tokenBytes ts
    | none => []

/-- Events of one Serial.println call. -/
def pln (s : String) : List Ev :=
  [Ev.print s, Ev.printNl]

/-- Embedding of i2cAddr: store the byte and announce it.  The (int) cast
of the unsigned char prints the plain value. -/
def i2cAddr (addr : Nat) (st : St) : St × List Ev :=
  ({st with i2cSlaveAddress := addr},
   [Ev.print ("I2C Slave Address set to:  "), Ev.print (toString addr), Ev.printNl])

/-- Embedding of i2cRead: announce the request, issue requestFrom, and
print the received bytes in hex only when at least cnt are available.
The for loop is guarded by that availability check, so it pops exactly
the first cnt received bytes (a negative cnt runs the loop zero times). -/
def i2cRead (env : Env) (cnt : Int) (st : St) : St × List Ev :=
  let a := st.i2cSlaveAddress
  let ev0 : List Ev :=
    [Ev.print ("Reading "), Ev.print (toString cnt), Ev.print (" bytes from "),
     Ev.print (toString a), Ev.printNl]
  let rx := env.bus a cnt
  if cnt ≤ (rx.length : Int) then
    ({st with rx := rx.drop cnt.toNat},
     ev0 ++ [Ev.wireRequestFrom a cnt]
        ++ (rx.take cnt.toNat).map (fun b => Ev.print ("0x" ++ hex2 b ++ " "))
        ++ [Ev.printNl])
  else
    ({st with rx := rx}, ev0 ++ [Ev.wireRequestFrom a cnt] ++ [Ev.printNl])

/-- Embedding of the while loop of i2cWrite, entered with a byte already
fetched: write it, fetch the next token, repeat while the sentinel has
not appeared.  Returns the write events, the final dataCnt, and the
tokens left unconsumed. -/
def writeLoopGo : Int → List String → Nat → List Ev × Nat × List String
  | nd, toks, cnt =>
    if 0 ≤ nd then
      match toks with
      | [] => ([Ev.wireWrite nd.toNat], cnt + 1, [])
      | t :: ts =>
        let r := writeLoopGo (nextByte (t :: ts)).1 ts (cnt + 1)
        (Ev.wireWrite nd.toNat :: r.1, r.2.1, r.2.2)
    else ([], cnt, toks)

/-- Embedding of i2cWrite: fetch the first byte; when the sentinel shows
at once report nothing to write, otherwise bracket the writes of the
whole yielded stream in one begin / end transmission using the given
sendStop and report the count written. -/
def i2cWrite (sendStop : Bool) (toks : List String) (st : St) :
    St × List Ev × List String :=
  match nextByte toks with
  | (nd, toks1) =>
    if 0 ≤ nd then
      let r := writeLoopGo nd toks1 0
      (st,
       [Ev.wireBegin st.i2cSlaveAddress] ++ r.1
         ++ [Ev.wireEnd sendStop, Ev.print ("Wrote "), Ev.print (toString r.2.1),
             Ev.print (" bytes"), Ev.printNl],
       r.2.2)
    else
      (st, [Ev.print ("nothing to write"), Ev.printNl], toks1)

/-- Embedding of i2cGet: a write with sendStop false over the remaining
tokens, then a read of cnt bytes. -/
def i2cGet (env : Env) (cnt : Int) (toks : List String) (st : St) :
    St × List Ev × List String :=
  match i2cWrite false toks st with
  | (st1, evs1, rest1) =>
    match i2cRead env cnt st1 with
    | (st2, evs2) => (st2, evs1 ++ evs2, rest1)

/-- Events of i2cHelp. -/
def i2cHelpEvs : List Ev :=
  pln ("I2C Interface") ++ pln ("Implemented commands:")
    ++ pln ("I/i A/a addr  - Set I2C slave address")
    ++ pln ("I/i W/w byte byte ... - Write bytes to I2C")
    ++ pln ("I/i F/f byte byte ... - Write bytes to I2C (stop=false)")
    ++ pln ("I/i R/r cnt - Read cnt bytes from I2C")
    ++ pln ("I/i G/g cnt byte byte ... - Get cnt bytes after writing remaining bytes")

/-- Embedding of i2cTrans.  The parameter toks holds the tokens that
follow the leading I command token; its head is the subcommand token the
caller fetched with strtok.  A none result marks undefined C behaviour:
with no subcommand token i2cCmd is a null pointer whose first character
the switch reads, and the A / G / R cases pass the result of strtok,
null when no token is left, straight into strtoul. -/
def i2cTrans (env : Env) (toks : List String) (st : St) :
    Option (St × List Ev × List String) :=
  match toks with
  | [] => none
  | sub :: rest =>
    match sub.toList with
    | [] =>
      some (st, [Ev.print ("Unknown command:  "), Ev.print sub, Ev.printNl]
                  ++ i2cHelpEvs, rest)
    | c :: _ =>
      if c = 'A' ∨ c = 'a' then
        match rest with
        | [] => none
        | t :: rest2 =>
          match i2cAddr ((strtoul0 t).1 % 256) st with
          | (st2, evs) => some (st2, evs, rest2)
      else if c = 'G' ∨ c = 'g' then
        match rest with
        | [] => none
        | t :: rest2 => some (i2cGet env (toInt32 (strtoul0 t).1) rest2 st)
      else if c = 'R' ∨ c = 'r' then
        match rest with
        | [] => none
        | t :: rest2 =>
          match i2cRead env (toInt32 (strtoul0 t).1) st with
          | (st2, evs) => some (st2, evs, rest2)
      else if c = 'W' ∨ c = 'w' then
        some (i2cWrite true rest st)
      else if c = 'F' ∨ c = 'f' then
        some (i2cWrite false rest st)
      else
        some (st, [Ev.print ("Unknown command:  "), Ev.print sub, Ev.printNl]
                    ++ i2cHelpEvs, rest)

/-- The XO_PRGMN pin number. -/
def xoPrgmnPin : Nat := 9

/-- Encoding of the Arduino pin modes used by the sketch: OUTPUT as 1 and
INPUT_PULLUP as 2. -/
def modeOutput : Nat := 1

/-- Encoding of INPUT_PULLUP, see modeOutput. -/
def modeInputPullup : Nat := 2

/-- The LED_BUILTIN pin, 13 on the Arduino convention. -/
def ledBuiltin : Nat := 13

/-- Embedding of printBufHEX: the message, one 0x prefix for the whole
dump, then cnt bytes as two uppercase hex digits each. -/
def printBufHEX (msg : String) (buf : List Nat) (cnt : Nat) : List Ev :=
  [Ev.print msg, Ev.print ("0x")]
    ++ (buf.take cnt).map (fun b => Ev.print (hex2 b))
    ++ [Ev.printNl]

/-- Embedding of xoDetails: five MachXO library reads, each followed by a
hex dump of the filled buffer prefix. -/
def xoDetails (env : Env) : List Ev :=
  [Ev.machXOCall ("readDeviceID")] ++ printBufHEX ("Device ID:  ") env.deviceID 4
    ++ [Ev.machXOCall ("readUserCode")] ++ printBufHEX ("User Code:  ") env.userCode 4
    ++ [Ev.machXOCall ("readFeatureRow")] ++ printBufHEX ("Feature Row:  ") env.featureRow 8
    ++ [Ev.machXOCall ("readFeatureBits")] ++ printBufHEX ("Feature Bits:  ") env.featureBits 2
    ++ [Ev.machXOCall ("readStatus")] ++ printBufHEX ("Status:  ") env.statusBuf 4

/-- Embedding of xoStatus. -/
def xoStatus (env : Env) : List Ev :=
  [Ev.machXOCall ("readStatus")] ++ printBufHEX ("Status:  ") env.statusBuf 4

/-- Embedding of xoConfig. -/
def xoConfig : List Ev :=
  [Ev.machXOCall ("enableConfigOffline")] ++ pln ("Enabled Offline Configuration")

/-- Embedding of xoRefresh. -/
def xoRefresh : List Ev :=
  [Ev.machXOCall ("refresh")] ++ pln ("Refreshed MachXO Configuration")

/-- Embedding of xoErase. -/
def xoErase : List Ev :=
  [Ev.machXOCall ("erase")] ++ pln ("Erasing...")
    ++ [Ev.machXOCall ("waitBusy")] ++ pln ("Erased Configuration and UFM")

/-- Embedding of xoProgPin on a non-null argument string.  An empty
string has the NUL terminator as prog[0] and falls to the default case,
exactly as the C switch does. -/
def xoProgPin (prog : String) : List Ev :=
  match prog.toList with
  | c :: _ =>
    if c = '0' ∨ c = 'L' ∨ c = 'l' then
      [Ev.digitalWrite xoPrgmnPin false, Ev.pinModeSet xoPrgmnPin modeOutput]
        ++ pln ("Program_N pin low")
    else
      [Ev.pinModeSet xoPrgmnPin modeInputPullup] ++ pln ("Program_N pin high")
  | [] =>
    [Ev.pinModeSet xoPrgmnPin modeInputPullup] ++ pln ("Program_N pin high")

/-- Embedding of xoLoadHEX on a non-null filename. -/
def xoLoadHEX (env : Env) (filename : String) : List Ev :=
  if env.fileOk filename then
    [Ev.fileOpen filename, Ev.print ("Opened "), Ev.print filename, Ev.printNl,
     Ev.machXOCall ("loadHex"), Ev.fileClose,
     Ev.print ("Loaded "), Ev.print filename, Ev.printNl,
     Ev.machXOCall ("programDone")]
  else
    [Ev.fileOpen filename, Ev.print ("Failed to open "), Ev.print filename, Ev.printNl]

/-- Embedding of rd1124MemTst: two fixed fill transmissions, the banner,
the address-pointer transmission whose stop bit depends on one token
pulled with nextByte, a request of 8 bytes, and a dump of dataBuf, which
keeps its uninitialized stack content when fewer than 8 bytes arrive. -/
def rd1124MemTst (env : Env) (toks : List String) : List Ev × List String :=
  let block1 : List Ev :=
    [Ev.wireBegin 0x41]
      ++ ([0x02, 0x00, 0x00, 0x01, 0x02, 0x03, 0x04, 0x05, 0x06, 0x07].map Ev.wireWrite)
      ++ [Ev.wireEnd true]
  let block2 : List Ev :=
    [Ev.wireBegin 0x41]
      ++ ([0x02, 0x08, 0x10, 0x11, 0x12, 0x13, 0x14, 0x15, 0x16, 0x17].map Ev.wireWrite)
      ++ [Ev.wireEnd true]
  match nextByte toks with
  | (nd, toks1) =>
    let stopEv := if 0 < nd then Ev.wireEnd true else Ev.wireEnd false
    let rx := env.bus 0x41 8
    let dataBuf := if 8 ≤ rx.length then rx.take 8 else env.memTstBuf
    (block1 ++ block2 ++ pln ("Filled with:  0x00-0x07, 0x10-0x17")
       ++ [Ev.wireBegin 0x41, Ev.wireWrite 0x0B, Ev.wireWrite 0x04, stopEv,
           Ev.wireRequestFrom 0x41 8]
       ++ printBufHEX ("Read back from 0x04:  ") dataBuf 8,
     toks1)

/-- Embedding of printDir: the directory listing the main loop and the D
command produce from the Filesystem capability. -/
def printDir (env : Env) : List Ev :=
  if env.rootOk then
    [Ev.fileOpen ("/")] ++ pln ("Flash contents:")
      ++ env.dirEntries.foldr
          (fun e acc =>
            [Ev.filePrintSize e.2.1, Ev.print (" "), Ev.filePrintName e.1]
              ++ (if e.2.2 then [Ev.print ("/")] else [])
              ++ [Ev.printNl, Ev.fileClose] ++ acc) []
      ++ [Ev.fileClose, Ev.printNl]
  else
    [Ev.fileOpen ("/")] ++ pln ("open root failed")

/-- Events of printHelp. -/
def printHelpEvs : List Ev :=
  pln ("MachXO Programming Example Command Interface")
    ++ pln ("Valid commands:")
    ++ pln ("H/h/? - Print this help information")
    ++ pln ("D/d   - Print root directory")
    ++ pln ("X/x   - MachXO Device Details")
    ++ pln ("S/s   - MaxhXO Status")
    ++ pln ("C/c   - MaxhXO enable offline Configuration")
    ++ pln ("E/e   - MaxhXO Erase configuration and UFM")
    ++ pln ("R/r   - MachXO Refresh")
    ++ pln ("P/p [0/low/1/high] - MachXO PROGRAMN pin")
    ++ pln ("L/l [filename] - MachXO Load hex file")
    ++ pln ("I/i [command] - I2C transaction commands")
    ++ pln ("M/m [0/1] - MachXO RD1124 memory test")

/-- The strtok delimiter set of the sketch: comma, space, tab. -/
def isDelim (c : Char) : Bool :=
  c = ',' || c = ' ' || c = '\t'

/-- Accumulator pass over the characters of the line: a delimiter closes
the token collected so far, anything else extends it. -/
def tokenizeGo : List Char → List Char → List String
  | [], acc => if acc = [] then [] else [String.mk acc.reverse]
  | c :: cs, acc =>
    if isDelim c then
      (if acc = [] then [] else [String.mk acc.reverse]) ++ tokenizeGo cs []
    else tokenizeGo cs (c :: acc)

/-- The token sequence the repeated strtok calls produce from a line:
maximal delimiter-free runs, in order. -/
def tokenizeLine (s : String) : List String :=
  tokenizeGo s.toList []

/-- Embedding of runCommand on the token sequence of the line.  A none
result marks undefined C behaviour: with no token at all commandName is
a null pointer whose first character the switch reads; the L and P cases
pass the result of strtok, null when no token follows, into file open
respectively prog[0].  An empty first token would put the NUL terminator
in commandName[0] and fall to the default case. -/
def runCommandT (env : Env) (toks : List String) (st : St) :
    Option (St × List Ev) :=
  match toks with
  | [] => none
  | cmd :: rest =>
    match cmd.toList with
    | [] =>
      some (st, [Ev.print ("Unknown command:  "), Ev.print cmd, Ev.printNl]
                  ++ printHelpEvs)
    | c :: _ =>
      if c = 'H' ∨ c = 'h' ∨ c = '?' then some (st, printHelpEvs)
      else if c = 'X' ∨ c = 'x' then some (st, xoDetails env)
      else if c = 'S' ∨ c = 's' then some (st, xoStatus env)
      else if c = 'C' ∨ c = 'c' then some (st, xoConfig)
      else if c = 'E' ∨ c = 'e' then some (st, xoErase)
      else if c = 'R' ∨ c = 'r' then some (st, xoRefresh)
      else if c = 'L' ∨ c = 'l' then
        match rest with
        | [] => none
        | fn :: _ => some (st, xoLoadHEX env fn)
      else if c = 'P' ∨ c = 'p' then
        match rest with
        | [] => none
        | p :: _ => some (st, xoProgPin p)
      else if c = 'M' ∨ c = 'm' then
        some (st, (rd1124MemTst env rest).1)
      else if c = 'I' ∨ c = 'i' then
        (i2cTrans env rest st).map (fun r => (r.1, r.2.1))
      else if c = 'D' ∨ c = 'd' then
        some (st, printDir env)
      else
        some (st, [Ev.print ("Unknown command:  "), Ev.print cmd, Ev.printNl]
                    ++ printHelpEvs)

/-- Embedding of runCommand on the completed line itself. -/
def runCommand (env : Env) (line : String) (st : St) : Option (St × List Ev) :=
  runCommandT env (tokenizeLine line) st

/-- The COMMAND_BUFFER_LENGTH capacity of the line buffer. -/
def commandBufferLength : Nat := 127

/-- One character of the character switch of the main loop, acting on the
current buffer content: a terminator completes the non-empty buffer, a
backspace removes the last character and echoes the three-byte visual
erase, any other character is appended while capacity remains and is
silently dropped afterwards. -/
def feedChar (buf : List Char) (c : Char) :
    List Char × List Ev × Option (List Char) :=
  if c = '\x0d' ∨ c = '\n' then
    if 0 < buf.length then ([], [], some buf) else (buf, [], none)
  else if c = '\x08' then
    if 0 < buf.length then
      (buf.dropLast, [Ev.print ("\x08"), Ev.print (" "), Ev.print ("\x08")], none)
    else (buf, [], none)
  else
    if buf.length < commandBufferLength then (buf ++ [c], [], none)
    else (buf, [], none)

/-- Drain a whole input character sequence through the line buffer,
collecting the completed lines it yields, in order. -/
def feedAll : List Char → List Char → List Char × List (List Char)
  | [], buf => (buf, [])
  | c :: cs, buf =>
    match feedChar buf c with
    | (buf1, _, yld) =>
      match feedAll cs buf1 with
      | (buf2, lines) => (buf2, (match yld with | some l => [l] | none => []) ++ lines)

/-- Backspace application on a terminator-free character sequence: each
backspace removes the preceding character, everything else appends. -/
def applyBS (pre : List Char) : List Char :=
  pre.foldl (fun b c => if c = '\x08' then b.dropLast else b ++ [c]) []

/-- Embedding of msc_read_cb: forward a whole-block read and map the
capability verdict to bufsize or the -1 sentinel through the int32_t
return type. -/
def msc_read_cb (lba : Nat) (bufsize : Nat) (ok : Bool) : Int × List Ev :=
  ((if ok then toInt32 bufsize else -1), [Ev.flashReadBlocks lba (bufsize / 512)])

/-- Embedding of msc_write_cb: raise the busy LED, forward a whole-block
write, and map the verdict as msc_read_cb does. -/
def msc_write_cb (lba : Nat) (bufsize : Nat) (ok : Bool) : Int × List Ev :=
  ((if ok then toInt32 bufsize else -1),
   [Ev.digitalWrite ledBuiltin true, Ev.flashWriteBlocks lba (bufsize / 512)])

/-- Embedding of msc_flush_cb: sync the flash block cache, clear the FAT
cache, raise the changed flag, drop the busy LED. -/
def msc_flush_cb (st : St) : St × List Ev :=
  ({st with changed := true},
   [Ev.flashSyncBlocks, Ev.fatfsCacheClear, Ev.changedSet true,
    Ev.digitalWrite ledBuiltin false])

/-- The changed-flag poll at the bottom of the main loop: when the flag
is up, drop it and print the directory once. -/
def loopDirCheck (env : Env) (st : St) : St × List Ev :=
  if st.changed then ({st with changed := false}, printDir env) else (st, [])

/-- State reached after k flush callbacks in a row. -/
def iterFlush : Nat → St → St
  | 0, st => st
  | k + 1, st => iterFlush k (msc_flush_cb st).1

/-- Definedness of the dispatch of a token sequence: the token uses that
reach a null pointer in the C code are excluded, everything else is
total. -/
def wfToks : List String → Bool
  | [] => false
  | cmd :: rest =>
    match cmd.toList with
    | [] => true
    | c :: _ =>
      if c = 'L' ∨ c = 'l' ∨ c = 'P' ∨ c = 'p' then !rest.isEmpty
      else if c = 'I' ∨ c = 'i' then
        match rest with
        | [] => false
        | sub :: rest2 =>
          match sub.toList with
          | [] => true
          | s :: _ =>
            if s = 'A' ∨ s = 'a' ∨ s = 'G' ∨ s = 'g' ∨ s = 'R' ∨ s = 'r' then
              !rest2.isEmpty
            else true
      else true

/-- A concrete quiet environment: the bus answers nothing, every library
buffer reads back as zeros, file opens fail, the directory is empty. -/
def env0 : Env where
  bus := fun _ _ => []
  deviceID := [0, 0, 0, 0, 0, 0, 0, 0]
  userCode := [0, 0, 0, 0, 0, 0, 0, 0]
  featureRow := [0, 0, 0, 0, 0, 0, 0, 0]
  featureBits := [0, 0, 0, 0, 0, 0, 0, 0]
  statusBuf := [0, 0, 0, 0, 0, 0, 0, 0]
  fileOk := fun _ => false
  rootOk := true
  dirEntries := []
  memTstBuf := [0, 0, 0, 0, 0, 0, 0, 0]

/-- The global state right after setup: address 0x41, changed raised to
print the initial listing, empty receive buffer. -/
def st0 : St where
  i2cSlaveAddress := 0x41
  changed := true
  rx := []

/-- Trace shape of i2cRead: the announcement, the bus request, the hex
dump exactly when enough bytes arrived, the closing newline. -/
theorem i2cRead_trace (env : Env) (cnt : Int) (st : St) :
    (i2cRead env cnt st).2 =
      [Ev.print ("Reading "), Ev.print (toString cnt), Ev.print (" bytes from "),
       Ev.print (toString st.i2cSlaveAddress), Ev.printNl,
       Ev.wireRequestFrom st.i2cSlaveAddress cnt]
      ++ (if cnt ≤ ((env.bus st.i2cSlaveAddress cnt).length : Int) then
            ((env.bus st.i2cSlaveAddress cnt).take cnt.toNat).map
              (fun b => Ev.print ("0x" ++ hex2 b ++ " "))
          else [])
      ++ [Ev.printNl] := by
  unfold i2cRead
  by_cases h : cnt ≤ ((env.bus st.i2cSlaveAddress cnt).length : Int) <;>
    simp [h]

/-- Unfolding of the write loop entered with a valid byte in hand: it
writes that byte and then the yielded remainder of the stream, counting
one write per byte. -/
theorem writeLoopGo_spec : ∀ (ts : List String) (b : Nat) (c : Nat),
    (writeLoopGo (b : Int) ts c).1 = (b :: tokenBytes ts).map Ev.wireWrite ∧
    (writeLoopGo (b : Int) ts c).2.1 = c + (tokenBytes ts).length + 1 := by
  intro ts
  induction ts with
  | nil =>
    intro b c
    simp [writeLoopGo, tokenBytes]
  | cons t ts ih =>
    intro b c
    rw [writeLoopGo.eq_def]
    simp only [Int.natCast_nonneg, if_pos]
    cases hp : parseByte t with
    | some b2 =>
      have h1 := (ih b2 (c + 1)).1
      have h2 := (ih b2 (c + 1)).2
      simp [nextByte, hp, tokenBytes, h1, h2]
      omega
    | none =>
      have hneg : ¬ (0 : Int) ≤ -1 := by norm_num
      simp [nextByte, hp, tokenBytes]
      rw [writeLoopGo.eq_def]
      simp [hneg]

/-- Trace shape of i2cWrite: state untouched; with an empty yielded
stream only the diagnostic, otherwise one begin / end bracket carrying
the given sendStop around the writes of the whole yielded stream. -/
theorem i2cWrite_trace (sendStop : Bool) (toks : List String) (st : St) :
    (i2cWrite sendStop toks st).1 = st ∧
    (i2cWrite sendStop toks st).2.1 =
      (match tokenBytes toks with
       | [] => [Ev.print ("nothing to write"), Ev.printNl]
       | bs => [Ev.wireBegin st.i2cSlaveAddress] ++ bs.map Ev.wireWrite
                 ++ [Ev.wireEnd sendStop, Ev.print ("Wrote "),
                     Ev.print (toString bs.length), Ev.print (" bytes"), Ev.printNl]) := by
  cases toks with
  | nil =>
    constructor <;> simp [i2cWrite, nextByte, tokenBytes]
  | cons t ts =>
    cases hp : parseByte t with
    | some b =>
      have h1 := (writeLoopGo_spec ts b 0).1
      have h2 := (writeLoopGo_spec ts b 0).2
      constructor <;>
        simp [i2cWrite, nextByte, hp, tokenBytes, h1, h2]
    | none =>
      have : ¬ (0 : Int) ≤ -1 := by norm_num
      constructor <;> simp [i2cWrite, nextByte, hp, tokenBytes, this]

/-- C1: the storage-bridge flush callback performs, in this order, the
block-cache sync, the filesystem-cache invalidation, the raising of the
dirty flag, and the clearing of the busy LED, on every invocation. -/
theorem flush_order_spec (st : St) :
    msc_flush_cb st =
      ({st with changed := true},
       [Ev.flashSyncBlocks, Ev.fatfsCacheClear, Ev.changedSet true,
        Ev.digitalWrite ledBuiltin false]) := rfl

/-- C8: both block callbacks forward exactly bufsize / 512 whole blocks
starting at the given lba and return bufsize on success and -1 on
failure; the hypothesis keeps the uint32 argument inside the range the
int32_t return type carries unchanged. -/
theorem msc_rw_forward_spec (lba bufsize : Nat) (ok : Bool)
    (h : bufsize < 2 ^ 31) :
    msc_read_cb lba bufsize ok =
      ((if ok then (bufsize : Int) else -1), [Ev.flashReadBlocks lba (bufsize / 512)]) ∧
    msc_write_cb lba bufsize ok =
      ((if ok then (bufsize : Int) else -1),
       [Ev.digitalWrite ledBuiltin true, Ev.flashWriteBlocks lba (bufsize / 512)]) := by
  have hm : bufsize % 2 ^ 32 = bufsize := Nat.mod_eq_of_lt (by omega)
  have ht : toInt32 bufsize = (bufsize : Int) := by
    unfold toInt32
    rw [hm, if_pos h]
  constructor <;> simp [msc_read_cb, msc_write_cb, ht]

/-- Instantiation of the block-callback theorem at the boundary sizes 511
(zero blocks) and 1024 (two blocks). -/
theorem msc_rw_forward_spec_witness :
    ((511 : Nat) < 2 ^ 31 ∧
      (msc_read_cb 5 511 true = ((511 : Int), [Ev.flashReadBlocks 5 0]) ∧
       msc_write_cb 5 511 true =
         ((511 : Int), [Ev.digitalWrite ledBuiltin true, Ev.flashWriteBlocks 5 0]))) ∧
    ((1024 : Nat) < 2 ^ 31 ∧
      (msc_read_cb 5 1024 false = ((-1 : Int), [Ev.flashReadBlocks 5 2]) ∧
       msc_write_cb 5 1024 false =
         ((-1 : Int), [Ev.digitalWrite ledBuiltin true, Ev.flashWriteBlocks 5 2]))) :=
  ⟨⟨by norm_num, msc_rw_forward_spec 5 511 true (by norm_num)⟩,
   ⟨by norm_num, msc_rw_forward_spec 5 1024 false (by norm_num)⟩⟩

/-- Auxiliary fact: the flush callback leaves a raised changed flag
raised, whatever else happens first. -/
theorem iterFlush_keeps_changed : ∀ (k : Nat) (st : St), st.changed = true →
    (iterFlush k st).changed = true := by
  intro k
  induction k with
  | zero => intro st h; simpa [iterFlush] using h
  | succ k ih =>
    intro st _
    rw [iterFlush]
    exact ih _ rfl

/-- C9: any k at least 1 flush callbacks between two polls of the dirty
flag leave the flag raised, and the next poll performs exactly one
directory refresh and drops the flag. -/
theorem flush_collapse_once (env : Env) (st : St) (k : Nat) (hk : 1 ≤ k) :
    (iterFlush k st).changed = true ∧
    loopDirCheck env (iterFlush k st) =
      ({iterFlush k st with changed := false}, printDir env) := by
  have hch : (iterFlush k st).changed = true := by
    cases k with
    | zero => omega
    | succ k => rw [iterFlush]; exact iterFlush_keeps_changed k _ rfl
  exact ⟨hch, by simp [loopDirCheck, hch]⟩

/-- Instantiation of the flush-collapse theorem at k equal to 3 in the
quiet environment. -/
theorem flush_collapse_once_witness :
    1 ≤ 3 ∧
    ((iterFlush 3 st0).changed = true ∧
     loopDirCheck env0 (iterFlush 3 st0) =
       ({iterFlush 3 st0 with changed := false}, printDir env0)) :=
  ⟨by norm_num, flush_collapse_once env0 st0 3 (by norm_num)⟩

/-- C5: the read subcommand requests cnt bytes from the stored slave
address; the trace carries exactly the first cnt received bytes as hex
prints, in receipt order, when at least cnt became available, and no hex
print at all otherwise. -/
theorem i2cRead_partial_policy (env : Env) (cnt : Int) (st : St) :
    (i2cRead env cnt st).2 =
      [Ev.print ("Reading "), Ev.print (toString cnt), Ev.print (" bytes from "),
       Ev.print (toString st.i2cSlaveAddress), Ev.printNl,
       Ev.wireRequestFrom st.i2cSlaveAddress cnt]
      ++ (if cnt ≤ ((env.bus st.i2cSlaveAddress cnt).length : Int) then
            ((env.bus st.i2cSlaveAddress cnt).take cnt.toNat).map
              (fun b => Ev.print ("0x" ++ hex2 b ++ " "))
          else [])
      ++ [Ev.printNl] :=
  i2cRead_trace env cnt st

/-- C10: when fewer than cnt bytes become available the read subcommand
still prints the announcement of the count and the slave address before
the bus request and a bare newline after it, suppressing only the hex
bytes. -/
theorem i2cRead_announce_on_partial (env : Env) (cnt : Int) (st : St)
    (h : ((env.bus st.i2cSlaveAddress cnt).length : Int) < cnt) :
    (i2cRead env cnt st).2 =
      [Ev.print ("Reading "), Ev.print (toString cnt), Ev.print (" bytes from "),
       Ev.print (toString st.i2cSlaveAddress), Ev.printNl,
       Ev.wireRequestFrom st.i2cSlaveAddress cnt, Ev.printNl] := by
  rw [i2cRead_trace, if_neg (not_le.mpr h)]
  simp

/-- Instantiation of the partial-read theorem: a read of 1 byte in the
quiet environment, where nothing becomes available, still announces and
closes the line. -/
theorem i2cRead_announce_on_partial_witness :
    (((env0.bus st0.i2cSlaveAddress 1).length : Int) < 1) ∧
    (i2cRead env0 1 st0).2 =
      [Ev.print ("Reading "), Ev.print (toString (1 : Int)), Ev.print (" bytes from "),
       Ev.print (toString st0.i2cSlaveAddress), Ev.printNl,
       Ev.wireRequestFrom st0.i2cSlaveAddress 1, Ev.printNl] :=
  ⟨by norm_num [env0], i2cRead_announce_on_partial env0 1 st0 (by norm_num [env0])⟩

/-- C6: a write or write-no-stop whose token stream yields no byte
leaves the state alone, opens no transmission, and reports nothing to
write; a non-empty yield is bracketed by one begin / end pair whose stop
argument is the mode boolean. -/
theorem i2cWrite_empty_policy (sendStop : Bool) (toks : List String) (st : St) :
    (i2cWrite sendStop toks st).1 = st ∧
    (i2cWrite sendStop toks st).2.1 =
      (match tokenBytes toks with
       | [] => [Ev.print ("nothing to write"), Ev.printNl]
       | bs => [Ev.wireBegin st.i2cSlaveAddress] ++ bs.map Ev.wireWrite
                 ++ [Ev.wireEnd sendStop, Ev.print ("Wrote "),
                     Ev.print (toString bs.length), Ev.print (" bytes"), Ev.printNl]) :=
  i2cWrite_trace sendStop toks st

/-- C4: the get subcommand first emits the whole write-no-stop trace of
the trailing tokens, with stop bit false, and then the whole read trace
of cnt bytes, in that order. -/
theorem i2cGet_write_then_read (env : Env) (cnt : Int) (toks : List String) (st : St) :
    (i2cGet env cnt toks st).2.1 =
      (match tokenBytes toks with
       | [] => [Ev.print ("nothing to write"), Ev.printNl]
       | bs => [Ev.wireBegin st.i2cSlaveAddress] ++ bs.map Ev.wireWrite
                 ++ [Ev.wireEnd false, Ev.print ("Wrote "),
                     Ev.print (toString bs.length), Ev.print (" bytes"), Ev.printNl])
      ++ ([Ev.print ("Reading "), Ev.print (toString cnt), Ev.print (" bytes from "),
           Ev.print (toString st.i2cSlaveAddress), Ev.printNl,
           Ev.wireRequestFrom st.i2cSlaveAddress cnt]
          ++ (if cnt ≤ ((env.bus st.i2cSlaveAddress cnt).length : Int) then
                ((env.bus st.i2cSlaveAddress cnt).take cnt.toNat).map
                  (fun b => Ev.print ("0x" ++ hex2 b ++ " "))
              else [])
          ++ [Ev.printNl]) := by
  obtain ⟨h1, h2⟩ := i2cWrite_trace false toks st
  have h3 := i2cRead_trace env cnt st
  unfold i2cGet
  rcases hW : i2cWrite false toks st with ⟨st1, evs1, rest1⟩
  rw [hW] at h1 h2
  dsimp only at h1 h2 ⊢
  subst h1
  rcases hR : i2cRead env cnt st1 with ⟨st2, evs2⟩
  rw [hR] at h3
  dsimp only at h3 ⊢
  rw [h2, h3]

/-- C2 counterexample: the address subcommand with the unparsable token
zz does not keep the previous address 0x41; strtoul converts nothing,
returns 0, and the handler stores 0 without any validation. -/
theorem i2cAddr_claim_cex :
    (i2cTrans env0 ["a", "zz"] st0).map (fun r => r.1.i2cSlaveAddress) = some 0 ∧
    st0.i2cSlaveAddress = 65 ∧
    (i2cTrans env0 ["a", "zz"] st0).map (fun r => r.1.i2cSlaveAddress) ≠
      some st0.i2cSlaveAddress := by
  refine ⟨rfl, rfl, ?_⟩
  decide

/-- C2 amended: with a token present the address subcommand stores the
low byte of whatever strtoul returns, 0 included for an unparsable
token; with the token absent the C code hands a null pointer to strtoul,
which is undefined. -/
theorem i2cAddr_set_amended (env : Env) (st : St) (sub t : String)
    (rest : List String) (c : Char) (cs : List Char)
    (hc : sub.toList = c :: cs) (hca : c = 'A' ∨ c = 'a') :
    i2cTrans env (sub :: t :: rest) st =
      some ({st with i2cSlaveAddress := (strtoul0 t).1 % 256},
            [Ev.print ("I2C Slave Address set to:  "),
             Ev.print (toString ((strtoul0 t).1 % 256)), Ev.printNl],
            rest) ∧
    i2cTrans env [sub] st = none := by
  have hc2 : sub.data = c :: cs := hc
  constructor <;> simp [i2cTrans, hc2, hca, i2cAddr]

/-- Instantiation of the amended address theorem at the unparsable token
zz in the quiet environment. -/
theorem i2cAddr_set_amended_witness :
    ("a".toList = 'a' :: [] ∧ ('a' = 'A' ∨ 'a' = 'a')) ∧
    (i2cTrans env0 ["a", "zz"] st0 =
      some ({st0 with i2cSlaveAddress := (strtoul0 "zz").1 % 256},
            [Ev.print ("I2C Slave Address set to:  "),
             Ev.print (toString ((strtoul0 "zz").1 % 256)), Ev.printNl],
            []) ∧
     i2cTrans env0 ["a"] st0 = none) :=
  ⟨⟨by decide, Or.inr rfl⟩,
   i2cAddr_set_amended env0 st0 "a" "zz" [] 'a' [] (by decide) (Or.inr rfl)⟩

/-- C3 counterexample: the completed line consisting of one space is
non-empty, so the loop dispatches it, strtok finds no token and returns
null, and the switch reads commandName[0] through the null pointer: the
dispatch does not run to completion. -/
theorem runCommand_missing_token_cex : runCommand env0 " " st0 = none := by decide

/-- Definedness of the I2C sub-dispatch: only the address, get and read
cases pull a token straight into strtoul, so the dispatch completes
whenever those have one. -/
theorem i2cTrans_defined (env : Env) (st : St) (sub : String) (rest2 : List String)
    (h : ∀ s cs, sub.toList = s :: cs →
         (s = 'A' ∨ s = 'a' ∨ s = 'G' ∨ s = 'g' ∨ s = 'R' ∨ s = 'r') → rest2 ≠ []) :
    (i2cTrans env (sub :: rest2) st).isSome = true := by
  obtain ⟨sd⟩ := sub
  rw [i2cTrans.eq_def]
  cases sd with
  | nil => rfl
  | cons s cs =>
    have hstr : (String.mk (s :: cs)).toList = s :: cs := rfl
    dsimp only
    by_cases hA : s = 'A' ∨ s = 'a'
    · have hne := h s cs hstr (by tauto)
      cases rest2 with
      | nil => exact absurd rfl hne
      | cons t r => simp [hA]
    · by_cases hG : s = 'G' ∨ s = 'g'
      · have hne := h s cs hstr (by tauto)
        cases rest2 with
        | nil => exact absurd rfl hne
        | cons t r => simp [hA, hG]
      · by_cases hR : s = 'R' ∨ s = 'r'
        · have hne := h s cs hstr (by tauto)
          cases rest2 with
          | nil => exact absurd rfl hne
          | cons t r => simp [hA, hG, hR]
        · by_cases hW : s = 'W' ∨ s = 'w'
          · simp [hA, hG, hR, hW]
          · by_cases hF : s = 'F' ∨ s = 'f'
            · simp [hA, hG, hR, hW, hF]
            · simp [hA, hG, hR, hW, hF]

/-- Totality of the dispatch on a well-formed token sequence. -/
theorem runCommandT_defined (env : Env) (st : St) :
    ∀ toks, wfToks toks = true → (runCommandT env toks st).isSome = true := by
  intro toks h
  cases toks with
  | nil => simp [wfToks] at h
  | cons cmd rest =>
    rw [wfToks.eq_def] at h
    rw [runCommandT.eq_def]
    obtain ⟨cd⟩ := cmd
    cases cd with
    | nil => rfl
    | cons c cs =>
      simp only [String.toList] at h ⊢
      by_cases h1 : c = 'H' ∨ c = 'h' ∨ c = '?'
      · simp [h1]
      by_cases h2 : c = 'X' ∨ c = 'x'
      · simp [h1, h2]
      by_cases h3 : c = 'S' ∨ c = 's'
      · simp [h1, h2, h3]
      by_cases h4 : c = 'C' ∨ c = 'c'
      · simp [h1, h2, h3, h4]
      by_cases h5 : c = 'E' ∨ c = 'e'
      · simp [h1, h2, h3, h4, h5]
      by_cases h6 : c = 'R' ∨ c = 'r'
      · simp [h1, h2, h3, h4, h5, h6]
      by_cases h7 : c = 'L' ∨ c = 'l'
      · rw [if_pos (by tauto)] at h
        cases rest with
        | nil => simp at h
        | cons fn rest2 => simp [h1, h2, h3, h4, h5, h6, h7]
      by_cases h8 : c = 'P' ∨ c = 'p'
      · rw [if_pos (by tauto)] at h
        cases rest with
        | nil => simp at h
        | cons p rest2 => simp [h1, h2, h3, h4, h5, h6, h7, h8]
      by_cases h9 : c = 'M' ∨ c = 'm'
      · simp [h1, h2, h3, h4, h5, h6, h7, h8, h9]
      by_cases h10 : c = 'I' ∨ c = 'i'
      · rw [if_neg (by tauto), if_pos h10] at h
        cases rest with
        | nil => simp at h
        | cons sub rest2 =>
          have hsub : ∀ s scs, sub.toList = s :: scs →
              (s = 'A' ∨ s = 'a' ∨ s = 'G' ∨ s = 'g' ∨ s = 'R' ∨ s = 'r') →
              rest2 ≠ [] := by
            intro s scs hseq hsel
            have hd : sub.data = s :: scs := hseq
            dsimp only at h
            rw [hd] at h
            dsimp only at h
            rw [if_pos hsel] at h
            simpa using h
          simp only [h1, h2, h3, h4, h5, h6, h7, h8, h9, h10, if_neg, if_pos,
            or_self, ite_false, ite_true]
          simp [h1, h2, h3, h4, h5, h6, h7, h8, h9, h10,
            Option.isSome_map]
          exact (by simpa using i2cTrans_defined env st sub rest2 hsub)
      by_cases h11 : c = 'D' ∨ c = 'd'
      · simp [h1, h2, h3, h4, h5, h6, h7, h8, h9, h10, h11]
      · simp [h1, h2, h3, h4, h5, h6, h7, h8, h9, h10, h11]

/-- C3 amended: every completed line whose tokens steer clear of the
null-pointer uses (a line with no token at all; L, P or I with no
following token; an I2C address, get or read subcommand with no count or
address token) dispatches to completion; every unrecognized command on
such a line recovers with a diagnostic and help text inside that same
dispatch. -/
theorem runCommand_total_amended (env : Env) (st : St) (line : String)
    (h : wfToks (tokenizeLine line) = true) :
    (runCommand env line st).isSome = true :=
  runCommandT_defined env st (tokenizeLine line) h

/-- Instantiation of the dispatch-totality theorem on the line i r 2 in
the quiet environment. -/
theorem runCommand_total_amended_witness :
    wfToks (tokenizeLine "i r 2") = true ∧
    (runCommand env0 "i r 2" st0).isSome = true :=
  ⟨by decide, runCommand_total_amended env0 st0 "i r 2" (by decide)⟩

/-- Composition of the drain over an appended input: the lines of the
whole are the lines of the first part followed by the lines of the
second part drained from the buffer the first part left. -/
theorem feedAll_append : ∀ (xs ys : List Char) (buf : List Char),
    feedAll (xs ++ ys) buf =
      ((feedAll ys (feedAll xs buf).1).1,
       (feedAll xs buf).2 ++ (feedAll ys (feedAll xs buf).1).2) := by
  intro xs
  induction xs with
  | nil => intro ys buf; simp [feedAll]
  | cons c xs ih =>
    intro ys buf
    simp only [List.cons_append, feedAll]
    rcases feedChar buf c with ⟨buf1, evs, yld⟩
    simp only [List.append_eq]
    rw [ih ys buf1]
    cases yld <;> simp

/-- Draining a terminator-free segment short enough to avoid truncation
neither yields a line nor deviates from plain backspace application. -/
theorem feedAll_noTerm : ∀ (pre : List Char) (buf : List Char),
    (∀ c ∈ pre, ¬(c = '\x0d' ∨ c = '\n')) →
    buf.length + pre.length ≤ commandBufferLength →
    feedAll pre buf =
      (pre.foldl (fun b c => if c = '\x08' then b.dropLast else b ++ [c]) buf, []) := by
  intro pre
  induction pre with
  | nil => intro buf _ _; simp [feedAll]
  | cons c cs ih =>
    intro buf hnt hlen
    have hc : ¬(c = '\x0d' ∨ c = '\n') := hnt c (List.mem_cons_self c cs)
    have hcs : ∀ x ∈ cs, ¬(x = '\x0d' ∨ x = '\n') :=
      fun x hx => hnt x (List.mem_cons_of_mem c hx)
    simp only [feedAll, List.foldl_cons]
    by_cases hb : c = '\x08'
    · have hstep : feedChar buf c = (buf.dropLast, if 0 < buf.length then
          [Ev.print ("\x08"), Ev.print (" "), Ev.print ("\x08")] else [], none) := by
        by_cases h0 : 0 < buf.length
        · simp [feedChar, hb, hc, h0]
        · have : buf = [] := by
            cases buf with
            | nil => rfl
            | cons a as => simp at h0
          simp [feedChar, hb, hc, this]
      rw [hstep]
      have hlen2 : buf.dropLast.length + cs.length ≤ commandBufferLength := by
        have := List.length_dropLast buf
        simp only [List.length_cons] at hlen
        omega
      rw [ih buf.dropLast hcs hlen2]
      simp [hb]
    · have hroom : buf.length < commandBufferLength := by
        simp only [List.length_cons] at hlen
        omega
      have hstep : feedChar buf c = (buf ++ [c], [], none) := by
        simp [feedChar, hb, hc, hroom]
      rw [hstep]
      have hlen2 : (buf ++ [c]).length + cs.length ≤ commandBufferLength := by
        simp only [List.length_append, List.length_cons, List.length_nil] at hlen ⊢
        omega
      rw [ih (buf ++ [c]) hcs hlen2]
      simp [hb]

/-- C7 counterexample: the one-character input consisting of a bare
carriage return is within the length bound and contains a terminator,
yet the line buffer yields no completed line at all, because the loop
only dispatches when the buffer is non-empty. -/
theorem lineBuffer_claim_cex :
    (feedAll ['\x0d'] []).2 = [] ∧ ((feedAll ['\x0d'] []).2).length ≠ 1 := by
  constructor <;> decide

/-- C7 amended: a terminator-free prefix within the capacity bound,
followed by a terminator, yields exactly one completed line equal to the
prefix with backspaces applied when that content is non-empty, and no
line when it is empty; the input after the terminator is drained from a
fresh buffer. -/
theorem lineBuffer_first_line_amended (pre rest : List Char) (t : Char)
    (ht : t = '\x0d' ∨ t = '\n')
    (hpre : ∀ c ∈ pre, ¬(c = '\x0d' ∨ c = '\n'))
    (hlen : pre.length + 1 ≤ 127) :
    (feedAll (pre ++ t :: rest) []).2 =
      (if applyBS pre = [] then [] else [applyBS pre]) ++ (feedAll rest []).2 ∧
    (feedAll (pre ++ t :: rest) []).1 = (feedAll rest []).1 := by
  have hfa := feedAll_append pre (t :: rest) []
  have hnt := feedAll_noTerm pre [] hpre (by simp only [commandBufferLength, List.length_nil]; omega)
  have hAB : (feedAll pre []).1 = applyBS pre := by rw [hnt]; rfl
  have hL0 : (feedAll pre []).2 = [] := by rw [hnt]
  have hterm : feedChar (applyBS pre) t =
      ([], [], if applyBS pre = [] then none else some (applyBS pre)) := by
    by_cases he : applyBS pre = []
    · simp [feedChar, ht, he]
    · have : 0 < (applyBS pre).length := by
        cases hap : applyBS pre with
        | nil => exact absurd hap he
        | cons a as => simp
      simp [feedChar, ht, this, he]
  have hstep : feedAll (t :: rest) (applyBS pre) =
      ((feedAll rest []).1,
       (if applyBS pre = [] then [] else [applyBS pre]) ++ (feedAll rest []).2) := by
    rw [feedAll, hterm]
    by_cases he : applyBS pre = [] <;> simp [he]
  rw [hfa, hAB, hL0, hstep]
  constructor <;> simp

/-- Instantiation of the amended line-buffer theorem: typing a, b,
backspace, newline and then x yields exactly the completed line a. -/
theorem lineBuffer_first_line_amended_witness :
    (('\n' = '\x0d' ∨ '\n' = '\n') ∧
     (∀ c ∈ ['a', 'b', '\x08'], ¬(c = '\x0d' ∨ c = '\n')) ∧
     (['a', 'b', '\x08'] : List Char).length + 1 ≤ 127) ∧
    ((feedAll (['a', 'b', '\x08'] ++ '\n' :: ['x']) []).2 =
       (if applyBS ['a', 'b', '\x08'] = [] then [] else [applyBS ['a', 'b', '\x08']])
         ++ (feedAll ['x'] []).2 ∧
     (feedAll (['a', 'b', '\x08'] ++ '\n' :: ['x']) []).1 = (feedAll ['x'] []).1) :=
  ⟨⟨by decide, by decide, by decide⟩,
   lineBuffer_first_line_amended ['a', 'b', '\x08'] ['x'] '\n'
     (by decide) (by decide) (by decide)⟩
